import Mathlib

/-!
A shallow embedding of the Game of Life board model from `src/board.rs`
(hulufei/game_of_life), together with theorems about its behaviour.

Rust strings are modelled at the byte level (a `&str` is its UTF-8 byte
sequence, here a `List Nat`), because the parser works on `line.bytes()`
and the ragged check compares `str::len` (byte lengths).  Machine indices
(`usize`) are modelled as `Nat`; the only `checked_add` in the source can
never overflow for a grid that fits in memory, so it is modelled as `some
(n + 1)`, while `checked_sub` keeps its failure case.  Fallible indexing
(the panicking `self.state[y][x]` reads and `new_board.state[y][x] = v`
writes of `next_board_state`) is modelled in the `Option` monad: `none`
is the panic branch.
-/

/-- The cell state, `enum State` with variants ALIVE and DEAD, from
`src/board.rs`. -/
inductive State where
  | ALIVE
  | DEAD
deriving DecidableEq, Repr

namespace State

/-- Rust `impl From<bool> for State`: `true → ALIVE`, `false → DEAD`. -/
def ofBool (b : Bool) : State :=
  if b then ALIVE else DEAD

/-- Rust `impl From<u8> for State`: bytes `b'.'` (46) and `b'0'` (48) give
`DEAD`, every other byte gives `ALIVE`. -/
def ofByte (c : Nat) : State :=
  if c = 46 ∨ c = 48 then DEAD else ALIVE

/-- Rust `impl fmt::Display for State`: ALIVE to byte 35 (the hash
mark),
`DEAD → '.'` (byte 46). -/
def toByte : State → Nat
  | ALIVE => 35
  | DEAD => 46

end State

/-- The board, `pub struct Board` holding `state: Vec<Vec<State>>`. -/
structure Board where
  state : List (List State)
deriving DecidableEq, Repr

namespace Board

/-- Rust `Board::new(w, h)`: `h` rows, each `vec![State::DEAD; w]`. -/
def new (w h : Nat) : Board :=
  ⟨List.replicate h (List.replicate w State.DEAD)⟩

/-- Rust `Board::width`: `self.state.first().map_or(0, |row| row.len())`. -/
def width (b : Board) : Nat :=
  (b.state.head?.map List.length).getD 0

/-- Rust `Board::height`: `self.state.len()`. -/
def height (b : Board) : Nat :=
  b.state.length

/-- The rectangularity invariant of the data model: every row has the
same length as every other row (equivalently, as `width`). -/
def rect (b : Board) : Prop :=
  ∀ r ∈ b.state, r.length = b.width

instance (b : Board) : Decidable b.rect :=
  List.decidableBAll _ b.state

end Board

/-- Bounds-checked grid read,
`self.state.get(y).and_then(|row| row.get(x))`: also the model of the
panicking read `self.state[y][x]`, whose panic branch is `none`. -/
def readCell (g : List (List State)) (y x : Nat) : Option State :=
  (g.get? y).bind fun row => row.get? x

/-- Rust `usize::checked_sub`: `none` exactly when the subtraction would
underflow. -/
def checkedSub (a b : Nat) : Option Nat :=
  if b ≤ a then some (a - b) else none

/-- Rust `Option::zip` as used to pair row and column candidates. -/
def ozip : Option Nat → Option Nat → Option (Nat × Nat)
  | some a, some b => some (a, b)
  | _, _ => none

/-- The `neighbors` array of `next_board_state`, clockwise, built from
`prev_row = y.checked_sub(1)`, `next_row = y.checked_add(1)` (which
cannot overflow a `Nat`), `prev_col = x.checked_sub(1)`,
`next_col = x.checked_add(1)`. -/
def neighborList (y x : Nat) : List (Option (Nat × Nat)) :=
  [ozip (checkedSub y 1) (some x),
   ozip (checkedSub y 1) (some (x + 1)),
   ozip (some y) (some (x + 1)),
   ozip (some (y + 1)) (some (x + 1)),
   ozip (some (y + 1)) (some x),
   ozip (some (y + 1)) (checkedSub x 1),
   ozip (some y) (checkedSub x 1),
   ozip (checkedSub y 1) (checkedSub x 1)]

/-- The `live_counts` computation of `next_board_state`: filter-map each
neighbour candidate through the bounds-checked read, keep the `ALIVE`
ones, and count. -/
def liveCounts (g : List (List State)) (y x : Nat) : Nat :=
  (((neighborList y x).filterMap fun pos =>
      pos.bind fun p => readCell g p.1 p.2).filter fun c =>
    c == State.ALIVE).length

/-- The `match (self.state[y][x], live_counts)` arms of
`next_board_state` that assign to `new_board`: `some v` when the arm
writes `v`, `none` for the `_ => ()` fall-through. -/
def writeRule (cur : State) (count : Nat) : Option State :=
  match cur, count with
  | State.ALIVE, 0 => some State.DEAD
  | State.ALIVE, 1 => some State.DEAD
  | State.ALIVE, c => if c > 3 then some State.DEAD else none
  | State.DEAD, 3 => some State.ALIVE
  | State.DEAD, _ => none

/-- The bounds-checked model of the write
`new_board.state[y][x] = v`: `none` is the out-of-bounds panic. -/
def updateAt (g : List (List State)) (y x : Nat) (v : State) :
    Option (List (List State)) :=
  match g.get? y with
  | none => none
  | some row => if x < row.length then some (g.set y (row.set x v)) else none

/-- The mutable store of the `next_board_state` loop: the receiver
`self` (only ever read in the source) and `new_board` (initially
`self.clone()`). -/
structure LoopState where
  selfG : List (List State)
  nextG : List (List State)
deriving DecidableEq, Repr

/-- One iteration of the inner loop of `next_board_state` at `(y, x)`:
count live neighbours of `self`, read `self.state[y][x]`, and apply the
matching rule arm to `new_board`. -/
def stepCell (st : LoopState) (y x : Nat) : Option LoopState :=
  (readCell st.selfG y x).bind fun cur =>
    match writeRule cur (liveCounts st.selfG y x) with
    | some v => (updateAt st.nextG y x v).map fun g => ⟨st.selfG, g⟩
    | none => some st

/-- The two nested `for` loops of `next_board_state`, from the store
`⟨self, self.clone()⟩`. -/
def nextRun (b : Board) : Option LoopState :=
  (List.range b.height).foldlM
    (fun st y => (List.range b.width).foldlM (fun st x => stepCell st y x) st)
    ⟨b.state, b.state⟩

/-- Rust `Board::next_board_state`: run the loops and return `new_board`;
`none` is the (unreachable, see `advance_no_panic`) panic. -/
def Board.next_board_state (b : Board) : Option Board :=
  (nextRun b).map fun st => ⟨st.nextG⟩

/-- The value a rule application leaves at a cell: the written state
when an arm fires, the cloned (pre-advance) state otherwise. -/
def nextCell (cur : State) (count : Nat) : State :=
  (writeRule cur count).getD cur

/-- The functional characterisation of `next_board_state` on
rectangular boards (proved as `nextRun_eq`): each position is mapped
independently from the pre-advance grid. -/
def nextFun (b : Board) : Board :=
  ⟨(List.range b.height).map fun y =>
    (List.range b.width).map fun x =>
      nextCell ((readCell b.state y x).getD State.DEAD)
        (liveCounts b.state y x)⟩

/-- Rust `impl From` of a fixed-size `[[bool; W]; H]` array; the
fixed-size array type is modelled as a list of lists whose
rectangularity (`∀ r ∈ m, r.length = W`) the Rust types guarantee. -/
def from_bool_matrix (m : List (List Bool)) : Board :=
  ⟨m.map fun r => r.map State.ofBool⟩

/-- Rust `random_state` overwrites each cell, row by row, with a fresh
sample from `thread_rng`; the samples are modelled by the oracle `rng`
indexed by position. -/
def randRows (rng : Nat → Nat → State) : Nat → List (List State) → List (List State)
  | _, [] => []
  | y, row :: rest =>
    ((List.range row.length).map fun x => rng y x) :: randRows rng (y + 1) rest

/-- Rust `Board::random_state`, with the entropy source as an oracle. -/
def Board.random_state (b : Board) (rng : Nat → Nat → State) : Board :=
  ⟨randRows rng 0 b.state⟩

/-- Rust `impl fmt::Display for Board`: for each row write each cell's byte
then `writeln!` a newline (byte 10). -/
def render (b : Board) : List Nat :=
  b.state.flatMap fun row => row.map State.toByte ++ [10]

/-- Split a byte string at every newline (byte 10); piece boundaries
consume the newline, a trailing newline does not open a final empty
piece, and the empty string has no pieces.  This is Rust
`str::lines` before `\r`-stripping. -/
def splitNl : List Nat → List (List Nat)
  | [] => []
  | c :: rest =>
    if c = 10 then [] :: splitNl rest
    else
      match splitNl rest with
      | [] => [[c]]
      | l :: ls => (c :: l) :: ls

/-- Rust `str::lines` strips one trailing `'\r'` (byte 13) from each
piece. -/
def stripCR (l : List Nat) : List Nat :=
  if l.getLast? = some 13 then l.dropLast else l

/-- Rust `value.lines().collect::<Vec<_>>()` on a UTF-8 byte string. -/
def rustLines (s : List Nat) : List (List Nat) :=
  (splitNl s).map stripCR

/-- Rust `impl TryFrom` of a string slice: collect the lines, fail when some
adjacent pair (`lines.windows(2)`) has unequal byte lengths, otherwise
map every byte of every line through `State::from`. -/
def from_text (s : List Nat) : Except String Board :=
  if ((rustLines s).zip (rustLines s).tail).any
      (fun p => p.1.length != p.2.length) then
    Except.error "Unable to convert &str to Board, all lines\x27 length should be equal"
  else
    Except.ok ⟨(rustLines s).map fun line => line.map State.ofByte⟩

/-- UTF-8 encoding of a character, to relate Lean `String`s (sequences
of characters) to the byte strings Rust operates on. -/
def charBytes (c : Char) : List Nat :=
  let n := c.toNat
  if n < 128 then [n]
  else if n < 2048 then [192 + n / 64, 128 + n % 64]
  else if n < 65536 then
    [224 + n / 4096, 128 + n / 64 % 64, 128 + n % 64]
  else
    [240 + n / 262144, 128 + n / 4096 % 64, 128 + n / 64 % 64, 128 + n % 64]

/-- The UTF-8 bytes of a string: the model of a Rust `&str` literal. -/
def strBytes (s : String) : List Nat :=
  s.data.flatMap charBytes

/-- The spec's transition rule table, stated from §4's words: Alive
with 0 or 1 live neighbours dies, Alive with exactly 2 or 3 stays
alive, Alive with more than 3 dies, Dead with exactly 3 becomes alive,
anything else is unchanged. -/
def lifeRule (cur : State) (n : Nat) : State :=
  match cur with
  | State.ALIVE =>
    if n = 0 ∨ n = 1 then State.DEAD
    else if n = 2 ∨ n = 3 then State.ALIVE
    else State.DEAD
  | State.DEAD => if n = 3 then State.ALIVE else State.DEAD

/-- The spec's neighbourhood: the 4 orthogonal and 4 diagonal offsets
at row/column ±1 (any enumeration order is acceptable per §4; this one
is clockwise). -/
def neighborOffsets : List (Int × Int) :=
  [(-1, 0), (-1, 1), (0, 1), (1, 1), (1, 0), (1, -1), (0, -1), (-1, -1)]

/-- Whether the position `(ny, nx)` is in bounds (row and column `≥ 0`
and `<` the respective extent) and holds a live cell. -/
def inBoundsAlive (b : Board) (ny nx : Int) : Bool :=
  decide (0 ≤ ny) && decide (ny < (b.height : Int)) &&
    decide (0 ≤ nx) && decide (nx < (b.width : Int)) &&
    (readCell b.state ny.toNat nx.toNat == some State.ALIVE)

/-- The spec's live-neighbour count of `(y, x)`: the number of Alive
cells among the in-bounds 8-neighbourhood. -/
def specNeighborCount (b : Board) (y x : Nat) : Nat :=
  (neighborOffsets.filter fun d =>
    inBoundsAlive b ((y : Int) + d.1) ((x : Int) + d.2)).length

deriving instance DecidableEq for Except

/-- Indicator of a live read: the contribution of one neighbour
candidate to a live count. -/
def indAlive : Option State → Nat
  | some State.ALIVE => 1
  | _ => 0

/-- The per-row result of `next_board_state` as a pure function of the
pre-advance grid. -/
def rowFun (g : List (List State)) (w y : Nat) : List State :=
  (List.range w).map fun x =>
    nextCell ((readCell g y x).getD State.DEAD) (liveCounts g y x)

/-! Sanity checks of the embedding against the repository's own test
suite (`mod tests` in `src/board.rs`). -/

example : (Board.new 1 1).state = [[State.DEAD]] := by decide

example :
    from_bool_matrix [[true, false], [false, true]] =
      ⟨[[State.ALIVE, State.DEAD], [State.DEAD, State.ALIVE]]⟩ := by decide

example :
    from_text (strBytes "#.\n.#") =
      Except.ok ⟨[[State.ALIVE, State.DEAD], [State.DEAD, State.ALIVE]]⟩ := by
  decide

example : (from_text (strBytes "#.....#\n#..\n#.....#\n")).isOk = false := by
  decide

example :
    render ⟨[[State.ALIVE, State.DEAD], [State.DEAD, State.ALIVE]]⟩ =
      strBytes "#.\n.#\n" := by decide

example :
    (from_text (strBytes "#")).toOption.bind Board.next_board_state =
      some ⟨[[State.DEAD]]⟩ := by decide

example :
    (from_text (strBytes "...\n#..\n#..\n...")).toOption.bind
        Board.next_board_state =
      (from_text (strBytes "...\n...\n...\n...")).toOption := by decide

example :
    (from_text (strBytes "...\n##.\n##.\n...")).toOption.bind
        Board.next_board_state =
      (from_text (strBytes "...\n##.\n##.\n...")).toOption := by decide

example :
    (from_text (strBytes "#.#\n###\n#.#")).toOption.bind
        Board.next_board_state =
      (from_text (strBytes "#.#\n#.#\n#.#")).toOption := by decide

example :
    (from_text (strBytes ".....\n.....\n##.##\n#.#.#\n.....")).toOption.bind
        Board.next_board_state =
      (from_text (strBytes ".....\n.....\n#####\n#.#.#\n.....")).toOption := by
  decide

/-! Basic lemmas about the loop of `next_board_state`. -/

lemma set_of_get? {α : Type} :
    ∀ (l : List α) (n : Nat) (a : α), l.get? n = some a → l.set n a = l
  | [], n, a, h => absurd (List.get?_mem h) (List.not_mem_nil a)
  | b :: l, 0, a, h => by simp_all
  | b :: l, n + 1, a, h => by
    simpa using congrArg (b :: ·) (set_of_get? l n a (by simpa using h))

lemma bindSomeEq {α β : Type} (a : α) (f : α → Option β) :
    ((some a : Option α) >>= f) = f a := rfl

lemma foldlMSingle {α β : Type} (f : β → α → Option β) (st : β) (a : α) :
    List.foldlM f st [a] = f st a := by
  cases h : f st a <;>
    simp [List.foldlM_cons, List.foldlM_nil, h]

lemma foldlM_option_pres {α β : Type} (P : β → Prop) (f : β → α → Option β)
    (hf : ∀ st a st', f st a = some st' → P st → P st') :
    ∀ (l : List α) (st st' : β), l.foldlM f st = some st' → P st → P st'
  | [], st, st', h, hP => by
    simp only [List.foldlM_nil] at h
    cases h
    exact hP
  | a :: l, st, st', h, hP => by
    simp only [List.foldlM_cons] at h
    cases h1 : f st a with
    | none => rw [h1] at h; exact absurd h (by simp)
    | some st1 =>
      rw [h1] at h
      exact foldlM_option_pres P f hf l st1 st' (by simpa using h) (hf st a st1 h1 hP)

lemma stepCell_selfG {st st' : LoopState} {y x : Nat}
    (h : stepCell st y x = some st') : st'.selfG = st.selfG := by
  cases h1 : readCell st.selfG y x with
  | none =>
    simp only [stepCell, h1, Option.none_bind] at h
    exact absurd h (by simp)
  | some cur =>
    cases h2 : writeRule cur (liveCounts st.selfG y x) with
    | none =>
      simp only [stepCell, h1, Option.some_bind, h2, Option.some.injEq] at h
      rw [← h]
    | some v =>
      cases h3 : updateAt st.nextG y x v with
      | none =>
        simp only [stepCell, h1, Option.some_bind, h2, h3,
          Option.map_none'] at h
        exact absurd h (by simp)
      | some g2 =>
        simp only [stepCell, h1, Option.some_bind, h2, h3, Option.map_some',
          Option.some.injEq] at h
        rw [← h]

lemma nextRun_selfG {b : Board} {st : LoopState} (h : nextRun b = some st) :
    st.selfG = b.state := by
  have := foldlM_option_pres (fun st => st.selfG = b.state)
    (fun st y => (List.range b.width).foldlM (fun st x => stepCell st y x) st)
    (fun st y st' hrow hP => by
      have := foldlM_option_pres (fun st => st.selfG = b.state)
        (fun st x => stepCell st y x)
        (fun st x st' hs hP => (stepCell_selfG hs).trans hP)
        (List.range b.width) st st' hrow hP
      exact this)
    (List.range b.height) ⟨b.state, b.state⟩ st h rfl
  exact this

lemma readCell_eq_row {g : List (List State)} {y : Nat} {gr : List State}
    (hg : g.get? y = some gr) (x : Nat) : readCell g y x = gr.get? x := by
  unfold readCell
  rw [hg]
  rfl

lemma get?_eq_some_of_lt {α : Type} {l : List α} {n : Nat} (h : n < l.length) :
    ∃ a, l.get? n = some a := by
  cases h' : l.get? n with
  | none => exact absurd (List.get?_eq_none.mp h') (by omega)
  | some a => exact ⟨a, rfl⟩

/-- Running the inner (column) loop of `next_board_state` over row `y`:
the row of `new_board` becomes the pointwise application of the rule,
reading only from the pre-advance grid `g`. -/
lemma inner_fold (g : List (List State)) (y : Nat) (gr : List State)
    (hg : g.get? y = some gr) :
    ∀ (w : Nat), w ≤ gr.length →
      ∀ (N : List (List State)), N.get? y = some gr →
        ∃ r', (List.range w).foldlM (fun st x => stepCell st y x) ⟨g, N⟩ =
            some ⟨g, N.set y r'⟩ ∧
          r'.length = gr.length ∧
          (∀ x, x < w →
            r'.get? x = (gr.get? x).map fun c => nextCell c (liveCounts g y x)) ∧
          (∀ x, w ≤ x → r'.get? x = gr.get? x) := by
  intro w
  induction w with
  | zero =>
    intro _ N hN
    refine ⟨gr, ?_, rfl, fun x hx => by omega, fun x _ => rfl⟩
    rw [set_of_get? N y gr hN]
    simp
  | succ w ih =>
    intro hw N hN
    obtain ⟨r', hfold, hlen, hlt, hge⟩ := ih (by omega) N hN
    obtain ⟨cur, hcur⟩ := get?_eq_some_of_lt (show w < gr.length by omega)
    have hread : readCell g y w = some cur := (readCell_eq_row hg w).trans hcur
    have hNy : y < N.length := by
      by_contra hy
      rw [List.get?_eq_none.mpr (by omega)] at hN
      exact absurd hN (by simp)
    have hsetget : (N.set y r').get? y = some r' := by
      rw [List.get?_set_eq, hN]; rfl
    rw [List.range_succ, List.foldlM_append, hfold, bindSomeEq, foldlMSingle]
    cases hwr : writeRule cur (liveCounts g y w) with
    | some v =>
      have hwlt : w < r'.length := by omega
      have hupd : updateAt (N.set y r') y w v =
          some (N.set y (r'.set w v)) := by
        unfold updateAt
        rw [hsetget]
        simp only [if_pos hwlt, List.set_set]
      have hstep : stepCell ⟨g, N.set y r'⟩ y w =
          some ⟨g, N.set y (r'.set w v)⟩ := by
        simp only [stepCell, hread, Option.some_bind, hwr, hupd,
          Option.map_some']
      refine ⟨r'.set w v, hstep, by simp [hlen], ?_, ?_⟩
      · intro x hx
        rcases Nat.lt_or_ge x w with hxw | hxw
        · rw [List.get?_set_ne _ _ (by omega)]
          exact hlt x hxw
        · have hxw' : x = w := by omega
          subst hxw'
          rw [List.get?_set_eq, hge x (le_refl x), hcur]
          simp [nextCell, hwr]
      · intro x hx
        rw [List.get?_set_ne _ _ (by omega)]
        exact hge x (by omega)
    | none =>
      have hstep : stepCell ⟨g, N.set y r'⟩ y w = some ⟨g, N.set y r'⟩ := by
        simp only [stepCell, hread, Option.some_bind, hwr]
      refine ⟨r', hstep, hlen, ?_, fun x hx => hge x (by omega)⟩
      intro x hx
      rcases Nat.lt_or_ge x w with hxw | hxw
      · exact hlt x hxw
      · have hxw' : x = w := by omega
        subst hxw'
        rw [hge x (le_refl x), hcur]
        simp [nextCell, hwr]

/-- Running the outer (row) loop of `next_board_state` over the first
`Y` rows: rows below `Y` are rewritten by `rowFun`, the rest still hold
the cloned pre-advance grid. -/
lemma outer_fold (g : List (List State)) (w : Nat)
    (hrect : ∀ r ∈ g, r.length = w) :
    ∀ (Y : Nat), Y ≤ g.length →
      ∃ N, (List.range Y).foldlM
          (fun st y =>
            (List.range w).foldlM (fun st x => stepCell st y x) st)
          ⟨g, g⟩ = some ⟨g, N⟩ ∧
        N.length = g.length ∧
        (∀ y, y < Y → N.get? y = some (rowFun g w y)) ∧
        (∀ y, Y ≤ y → N.get? y = g.get? y) := by
  intro Y
  induction Y with
  | zero =>
    intro _
    exact ⟨g, by simp, rfl, fun y hy => by omega, fun y _ => rfl⟩
  | succ Y ih =>
    intro hY
    obtain ⟨N, hfold, hlen, hlt, hge⟩ := ih (by omega)
    obtain ⟨gr, hgr⟩ := get?_eq_some_of_lt (show Y < g.length by omega)
    have hgrlen : gr.length = w := hrect gr (List.get?_mem hgr)
    have hNY : N.get? Y = some gr := (hge Y (le_refl Y)).trans hgr
    obtain ⟨r', hrow, hrlen, hrlt, hrge⟩ :=
      inner_fold g Y gr hgr w (by omega) N hNY
    have hr' : r' = rowFun g w Y := by
      apply List.ext_get?
      intro x
      rcases Nat.lt_or_ge x w with hx | hx
      · rw [hrlt x hx]
        obtain ⟨c, hc⟩ := get?_eq_some_of_lt (show x < gr.length by omega)
        rw [hc]
        simp only [rowFun, List.get?_map, List.get?_range hx, Option.map_some']
        rw [readCell_eq_row hgr, hc]
        rfl
      · rw [hrge x hx, List.get?_eq_none.mpr (by omega)]
        simp only [rowFun, List.get?_map]
        rw [List.get?_eq_none.mpr (by simpa using hx)]
        rfl
    rw [List.range_succ, List.foldlM_append, hfold, bindSomeEq, foldlMSingle]
    refine ⟨N.set Y r', hrow, by simp [hlen], ?_, ?_⟩
    · intro y hy
      rcases Nat.lt_or_ge y Y with hyY | hyY
      · rw [List.get?_set_ne _ _ (by omega)]
        exact hlt y hyY
      · have hyY' : y = Y := by omega
        subst hyY'
        rw [List.get?_set_eq, hNY, hr']
        rfl
    · intro y hy
      rw [List.get?_set_ne _ _ (by omega)]
      exact hge y (by omega)

/-- On a rectangular board the imperative loop of `next_board_state`
terminates without a panic, leaves `self` untouched, and fills
`new_board` with the functional `nextFun`. -/
lemma nextRun_eq (b : Board) (hb : b.rect) :
    nextRun b = some ⟨b.state, (nextFun b).state⟩ := by
  obtain ⟨N, hfold, hlen, hlt, hge⟩ :=
    outer_fold b.state b.width hb b.state.length (le_refl _)
  have hN : N = (nextFun b).state := by
    apply List.ext_get?
    intro y
    rcases Nat.lt_or_ge y b.state.length with hy | hy
    · rw [hlt y hy]
      show _ = ((List.range b.height).map _).get? y
      rw [List.get?_map, List.get?_range (show y < b.height from hy)]
      rfl
    · rw [hge y hy, List.get?_eq_none.mpr hy]
      show _ = ((List.range b.height).map _).get? y
      rw [List.get?_eq_none.mpr (by simpa using hy)]
  have hrun : nextRun b = some ⟨b.state, N⟩ := hfold
  rw [hrun, hN]

/-- On a rectangular board `next_board_state` succeeds and equals the
functional `nextFun`. -/
lemma next_eq (b : Board) (hb : b.rect) :
    b.next_board_state = some (nextFun b) := by
  unfold Board.next_board_state
  rw [nextRun_eq b hb]
  rfl

lemma nextFun_height (b : Board) : (nextFun b).height = b.height := by
  simp [nextFun, Board.height]

lemma nextFun_width (b : Board) : (nextFun b).width = b.width := by
  cases h : b.state with
  | nil =>
    have hh : b.height = 0 := by simp [Board.height, h]
    have hw : b.width = 0 := by simp [Board.width, h]
    simp [nextFun, Board.width, hh, hw, h]
  | cons r t =>
    have hh : b.height = t.length + 1 := by simp [Board.height, h]
    simp [nextFun, Board.width, hh, h, List.range_succ_eq_map]

lemma nextFun_rect (b : Board) : (nextFun b).rect := by
  intro r hr
  rw [nextFun_width]
  simp only [nextFun, List.mem_map] at hr
  obtain ⟨y, _, hy⟩ := hr
  rw [← hy]
  simp

/-- C10: on a rectangular board every direct grid indexing performed by
`next_board_state` (the reads `self.state[y][x]` and the writes
`new_board.state[y][x]`) is in bounds, so the panic branch of the
embedding (`none`) is unreachable. -/
theorem advance_no_panic (b : Board) (hb : b.rect) :
    (b.next_board_state).isSome := by
  rw [next_eq b hb]
  rfl

theorem advance_no_panic_witness :
    (⟨[[State.ALIVE, State.DEAD]]⟩ : Board).rect ∧
      (Board.next_board_state ⟨[[State.ALIVE, State.DEAD]]⟩).isSome :=
  ⟨by decide, advance_no_panic ⟨[[State.ALIVE, State.DEAD]]⟩ (by decide)⟩

/-- C4: `advance()` (`next_board_state`) returns a board with the same
width and the same height as its input. -/
theorem advance_preserves_dims (b : Board) (hb : b.rect) :
    ∃ b', b.next_board_state = some b' ∧
      b'.width = b.width ∧ b'.height = b.height :=
  ⟨nextFun b, next_eq b hb, nextFun_width b, nextFun_height b⟩

theorem advance_preserves_dims_witness :
    (⟨[[State.ALIVE, State.DEAD], [State.DEAD, State.DEAD]]⟩ : Board).rect ∧
      ∃ b', Board.next_board_state
          ⟨[[State.ALIVE, State.DEAD], [State.DEAD, State.DEAD]]⟩ = some b' ∧
        b'.width = (⟨[[State.ALIVE, State.DEAD], [State.DEAD, State.DEAD]]⟩ :
          Board).width ∧
        b'.height = (⟨[[State.ALIVE, State.DEAD], [State.DEAD, State.DEAD]]⟩ :
          Board).height :=
  ⟨by decide, advance_preserves_dims _ (by decide)⟩

/-- C5: `next_board_state` is pure: a successful run leaves the
receiver grid (`selfG`) exactly as it started, and any two runs on the
same input agree. -/
theorem advance_pure (b : Board) (st : LoopState)
    (h : nextRun b = some st) :
    st.selfG = b.state ∧ ∀ st₂, nextRun b = some st₂ → st₂ = st := by
  refine ⟨nextRun_selfG h, fun st₂ h₂ => ?_⟩
  rw [h] at h₂
  exact (Option.some.inj h₂).symm

theorem advance_pure_witness :
    (⟨[[State.ALIVE]], [[State.DEAD]]⟩ : LoopState).selfG =
      [[State.ALIVE]] :=
  (advance_pure ⟨[[State.ALIVE]]⟩ ⟨[[State.ALIVE]], [[State.DEAD]]⟩
    (by decide)).1

/-! Serialization: `Display`, `str::lines`, `TryFrom<&str>`. -/

lemma mem_of_getLast? {α : Type} :
    ∀ {l : List α} {a : α}, l.getLast? = some a → a ∈ l
  | [], a, h => by simp at h
  | [b], a, h => by
    simp only [List.getLast?_singleton, Option.some.injEq] at h
    simp [h]
  | b :: c :: t, a, h => by
    rw [List.getLast?_cons_cons] at h
    exact List.mem_cons_of_mem b (mem_of_getLast? h)

lemma stripCR_subset (l : List Nat) : stripCR l ⊆ l := by
  unfold stripCR
  split
  · exact List.dropLast_subset l
  · exact fun a ha => ha

lemma stripCR_of_no_cr {l : List Nat} (h : 13 ∉ l) : stripCR l = l := by
  unfold stripCR
  split
  · next hl => exact absurd (mem_of_getLast? hl) h
  · rfl

lemma toByte_ne_nl (s : State) : State.toByte s ≠ 10 := by
  cases s <;> decide

lemma toByte_ne_cr (s : State) : State.toByte s ≠ 13 := by
  cases s <;> decide

lemma no_nl_in_row (r : List State) : 10 ∉ r.map State.toByte := by
  intro h
  obtain ⟨s, _, hs⟩ := List.mem_map.mp h
  exact toByte_ne_nl s hs

lemma no_cr_in_row (r : List State) : 13 ∉ r.map State.toByte := by
  intro h
  obtain ⟨s, _, hs⟩ := List.mem_map.mp h
  exact toByte_ne_cr s hs

/-- Splitting a block that starts with a newline-free piece followed by
an explicit newline peels off exactly that piece. -/
lemma splitNl_append_row :
    ∀ (a rest : List Nat), 10 ∉ a →
      splitNl (a ++ 10 :: rest) = a :: splitNl rest
  | [], rest, _ => by
    show splitNl (10 :: rest) = _
    conv_lhs => rw [splitNl]
    rw [if_pos rfl]
  | c :: a, rest, h => by
    have hc : c ≠ 10 := fun hc => h (hc ▸ List.mem_cons_self c a)
    have ha : 10 ∉ a := fun ha => h (List.mem_cons_of_mem c ha)
    show splitNl (c :: (a ++ 10 :: rest)) = _
    conv_lhs => rw [splitNl]
    rw [if_neg hc, splitNl_append_row a rest ha]

/-- The lines of a rendered grid are exactly the rendered rows. -/
lemma rustLines_blocks :
    ∀ g : List (List State),
      rustLines (g.flatMap fun row => row.map State.toByte ++ [10]) =
        g.map fun r => r.map State.toByte
  | [] => rfl
  | r :: g => by
    rw [List.flatMap_cons]
    have : (r.map State.toByte ++ [10]) ++
        (g.flatMap fun row => row.map State.toByte ++ [10]) =
        r.map State.toByte ++ 10 ::
          (g.flatMap fun row => row.map State.toByte ++ [10]) := by
      rw [List.append_assoc]
      rfl
    rw [this]
    unfold rustLines
    rw [splitNl_append_row _ _ (no_nl_in_row r), List.map_cons,
      stripCR_of_no_cr (no_cr_in_row r)]
    have ih := rustLines_blocks g
    unfold rustLines at ih
    rw [ih]
    rfl

lemma render_lines (b : Board) :
    rustLines (render b) = b.state.map fun r => r.map State.toByte :=
  rustLines_blocks b.state

lemma render_getLast (b : Board) (h : b.state ≠ []) :
    (render b).getLast? = some 10 := by
  unfold render
  cases hg : b.state with
  | nil => exact absurd hg h
  | cons r g =>
    clear h hg
    induction g generalizing r with
    | nil => simp [List.flatMap_cons]
    | cons r' g ih =>
      rw [List.flatMap_cons, List.getLast?_append, ih r']
      rfl

lemma ofByte_toByte (s : State) : State.ofByte (State.toByte s) = s := by
  cases s <;> decide

/-- The adjacent-pairs length check accepts exactly the pairwise
equal-length line lists. -/
lemma chain_all_eq {l : List (List Nat)}
    (h : (l.zip l.tail).any (fun p => p.1.length != p.2.length) = false) :
    ∀ a ∈ l, ∀ b ∈ l, a.length = b.length := by
  induction l with
  | nil => intro a ha; exact absurd ha (by simp)
  | cons x xs ih =>
    cases xs with
    | nil =>
      intro a ha b hb
      simp only [List.mem_singleton] at ha hb
      rw [ha, hb]
    | cons y ys =>
      rw [List.tail_cons, List.zip_cons_cons, List.any_cons] at h
      have h1 : x.length = y.length := by
        by_contra hne
        simp [hne] at h
      have h2 : ((y :: ys).zip (y :: ys).tail).any
          (fun p => p.1.length != p.2.length) = false := by
        rw [List.tail_cons]
        exact (Bool.or_eq_false_iff.mp h).2
      have hall := ih h2
      intro a ha b hb
      rcases List.mem_cons.mp ha with rfl | ha' <;>
        rcases List.mem_cons.mp hb with rfl | hb'
      · rfl
      · exact h1.trans (hall y (List.mem_cons_self y ys) b hb')
      · exact (hall a ha' y (List.mem_cons_self y ys)).trans h1.symm
      · exact hall a ha' b hb'

lemma chain_of_uniform {l : List (List Nat)} {w : Nat}
    (h : ∀ a ∈ l, a.length = w) :
    (l.zip l.tail).any (fun p => p.1.length != p.2.length) = false := by
  rw [List.any_eq_false]
  intro p hp
  obtain ⟨h1, h2⟩ := List.mem_zip hp
  have := h p.1 h1
  have := h p.2 (List.tail_subset l h2)
  simp_all

/-- C2: rendering a board to text and re-parsing it with `from_text`
yields a board equal cell-for-cell to the original, for any
(rectangular) board with width > 0. -/
theorem render_roundtrip (b : Board) (hb : b.rect) (hw : 0 < b.width) :
    from_text (render b) = Except.ok b := by
  have hlines : rustLines (render b) = b.state.map fun r =>
      r.map State.toByte := render_lines b
  have huni : ∀ a ∈ rustLines (render b), a.length = b.width := by
    rw [hlines]
    intro a ha
    obtain ⟨r, hr, hra⟩ := List.mem_map.mp ha
    rw [← hra, List.length_map]
    exact hb r hr
  unfold from_text
  rw [hlines] at huni ⊢
  rw [chain_of_uniform huni]
  show Except.ok _ = _
  congr 1
  have : ∀ r : List State,
      (r.map State.toByte).map State.ofByte = r := by
    intro r
    rw [List.map_map]
    have : State.ofByte ∘ State.toByte = id := funext ofByte_toByte
    rw [this, List.map_id]
  cases b with
  | mk g =>
    congr 1
    rw [List.map_map]
    show g.map (fun r => (r.map State.toByte).map State.ofByte) = g
    calc g.map (fun r => (r.map State.toByte).map State.ofByte)
        = g.map id := List.map_congr_left fun r _ => this r
      _ = g := List.map_id g

theorem render_roundtrip_witness :
    (⟨[[State.ALIVE, State.DEAD], [State.DEAD, State.ALIVE]]⟩ : Board).rect ∧
      0 < (⟨[[State.ALIVE, State.DEAD], [State.DEAD, State.ALIVE]]⟩ :
        Board).width ∧
      from_text (render
          ⟨[[State.ALIVE, State.DEAD], [State.DEAD, State.ALIVE]]⟩) =
        Except.ok ⟨[[State.ALIVE, State.DEAD], [State.DEAD, State.ALIVE]]⟩ :=
  ⟨by decide, by decide,
    render_roundtrip ⟨[[State.ALIVE, State.DEAD], [State.DEAD, State.ALIVE]]⟩
      (by decide) (by decide)⟩

/-! The live-neighbour count of the loop agrees with the spec's
in-bounds-8-neighbourhood count. -/

lemma count_filterMap_alive {α : Type} (f : α → Option State) :
    ∀ l : List α,
      ((l.filterMap f).filter fun c => c == State.ALIVE).length =
        l.foldr (fun a acc => indAlive (f a) + acc) 0
  | [] => rfl
  | a :: l => by
    rw [List.filterMap_cons]
    cases h : f a with
    | none => simp [h, count_filterMap_alive f l, indAlive]
    | some c =>
      cases c <;>
        simp [h, count_filterMap_alive f l, indAlive, List.filter_cons] <;>
        omega

lemma count_filter_length {α : Type} (p : α → Bool) :
    ∀ l : List α,
      (l.filter p).length =
        l.foldr (fun a acc => (if p a then 1 else 0) + acc) 0
  | [] => rfl
  | a :: l => by
    cases h : p a <;> simp [List.filter_cons, h, count_filter_length p l] <;>
      omega

lemma readCell_some_bounds {b : Board} (hb : b.rect) {y x : Nat} {c : State}
    (h : readCell b.state y x = some c) : y < b.height ∧ x < b.width := by
  unfold readCell at h
  cases hg : b.state.get? y with
  | none =>
    rw [hg] at h
    exact absurd h (by simp)
  | some row =>
    rw [hg] at h
    simp only [Option.some_bind] at h
    refine ⟨?_, ?_⟩
    · have := List.get?_eq_some.mp hg
      exact this.choose
    · have hx := (List.get?_eq_some.mp h).choose
      rwa [hb row (List.get?_mem hg)] at hx

lemma indAlive_eq {b : Board} (hb : b.rect) (a c : Nat) :
    indAlive (readCell b.state a c) =
      if (decide (a < b.height) && decide (c < b.width) &&
          (readCell b.state a c == some State.ALIVE)) then 1 else 0 := by
  cases h : readCell b.state a c with
  | none =>
    have hbeq : ((none : Option State) == some State.ALIVE) = false := by
      decide
    rw [hbeq]
    simp [indAlive]
  | some s =>
    obtain ⟨h1, h2⟩ := readCell_some_bounds hb h
    rw [decide_eq_true h1, decide_eq_true h2]
    cases s with
    | ALIVE =>
      have hbeq : ((some State.ALIVE : Option State) ==
          some State.ALIVE) = true := by decide
      rw [hbeq]
      simp [indAlive]
    | DEAD =>
      have hbeq : ((some State.DEAD : Option State) ==
          some State.ALIVE) = false := by decide
      rw [hbeq]
      simp [indAlive]

lemma entry_bridge {b : Board} (hb : b.rect) {y x : Nat}
    (hy : y < b.height) (hx : x < b.width)
    (oy ox : Option Nat) (dy dx : Int)
    (hoy : oy = if 0 ≤ (y : Int) + dy then some ((y : Int) + dy).toNat
      else none)
    (hox : ox = if 0 ≤ (x : Int) + dx then some ((x : Int) + dx).toNat
      else none) :
    indAlive ((ozip oy ox).bind fun p => readCell b.state p.1 p.2) =
      if inBoundsAlive b ((y : Int) + dy) ((x : Int) + dx) then 1 else 0 := by
  by_cases h1 : 0 ≤ (y : Int) + dy
  · by_cases h2 : 0 ≤ (x : Int) + dx
    · rw [hoy, if_pos h1, hox, if_pos h2]
      have e0 : decide (0 ≤ (y : Int) + dy) = true := decide_eq_true h1
      have e0' : decide (0 ≤ (x : Int) + dx) = true := decide_eq_true h2
      have e1 : decide ((y : Int) + dy < (b.height : Int)) =
          decide (((y : Int) + dy).toNat < b.height) :=
        decide_eq_decide.mpr (by omega)
      have e2 : decide ((x : Int) + dx < (b.width : Int)) =
          decide (((x : Int) + dx).toNat < b.width) :=
        decide_eq_decide.mpr (by omega)
      show indAlive (readCell b.state ((y : Int) + dy).toNat
        ((x : Int) + dx).toNat) = _
      rw [indAlive_eq hb]
      simp only [inBoundsAlive, e0, e0', e1, e2, Bool.true_and,
        Bool.and_true]
    · rw [hoy, if_pos h1, hox, if_neg h2]
      have e : decide (0 ≤ (x : Int) + dx) = false := decide_eq_false h2
      simp only [inBoundsAlive, e, Bool.false_and, Bool.and_false]
      show indAlive none = _
      simp [indAlive]
  · rw [hoy, if_neg h1, hox]
    have e : decide (0 ≤ (y : Int) + dy) = false := decide_eq_false h1
    simp only [inBoundsAlive, e, Bool.false_and, Bool.and_false]
    by_cases h2 : 0 ≤ (x : Int) + dx
    · rw [if_pos h2]
      show indAlive none = _
      simp [indAlive]
    · rw [if_neg h2]
      show indAlive none = _
      simp [indAlive]

lemma checkedSub_ofs (n : Nat) :
    checkedSub n 1 =
      if 0 ≤ (n : Int) + -1 then some ((n : Int) + -1).toNat else none := by
  unfold checkedSub
  by_cases h : 1 ≤ n
  · rw [if_pos h, if_pos (by omega)]
    congr 1 <;> omega
  · rw [if_neg h, if_neg (by omega)]

lemma some_ofs0 (n : Nat) :
    (some n : Option Nat) =
      if 0 ≤ (n : Int) + 0 then some ((n : Int) + 0).toNat else none := by
  rw [if_pos (by omega)]
  congr 1 <;> omega

lemma some_ofs1 (n : Nat) :
    (some (n + 1) : Option Nat) =
      if 0 ≤ (n : Int) + 1 then some ((n : Int) + 1).toNat else none := by
  rw [if_pos (by omega)]
  congr 1 <;> omega

lemma liveCounts_eq_spec (b : Board) (hb : b.rect) (y x : Nat)
    (hy : y < b.height) (hx : x < b.width) :
    liveCounts b.state y x = specNeighborCount b y x := by
  unfold liveCounts specNeighborCount
  rw [count_filterMap_alive, count_filter_length]
  unfold neighborList neighborOffsets
  simp only [List.foldr_cons, List.foldr_nil]
  rw [entry_bridge hb hy hx _ _ (-1) 0 (checkedSub_ofs y) (some_ofs0 x),
    entry_bridge hb hy hx _ _ (-1) 1 (checkedSub_ofs y) (some_ofs1 x),
    entry_bridge hb hy hx _ _ 0 1 (some_ofs0 y) (some_ofs1 x),
    entry_bridge hb hy hx _ _ 1 1 (some_ofs1 y) (some_ofs1 x),
    entry_bridge hb hy hx _ _ 1 0 (some_ofs1 y) (some_ofs0 x),
    entry_bridge hb hy hx _ _ 1 (-1) (some_ofs1 y) (checkedSub_ofs x),
    entry_bridge hb hy hx _ _ 0 (-1) (some_ofs0 y) (checkedSub_ofs x),
    entry_bridge hb hy hx _ _ (-1) (-1) (checkedSub_ofs y)
      (checkedSub_ofs x)]

lemma nextCell_eq_lifeRule (cur : State) (n : Nat) :
    nextCell cur n = lifeRule cur n := by
  cases cur <;> rcases n with _ | _ | _ | _ | m <;>
    simp [nextCell, writeRule, lifeRule]

lemma readCell_nextFun (b : Board) (y x : Nat)
    (hy : y < b.height) (hx : x < b.width) :
    readCell (nextFun b).state y x =
      some (nextCell ((readCell b.state y x).getD State.DEAD)
        (liveCounts b.state y x)) := by
  have h1 : (nextFun b).state.get? y =
      some ((List.range b.width).map fun x =>
        nextCell ((readCell b.state y x).getD State.DEAD)
          (liveCounts b.state y x)) := by
    show ((List.range b.height).map _).get? y = _
    rw [List.get?_map, List.get?_range hy]
    rfl
  rw [readCell_eq_row h1 x, List.get?_map, List.get?_range hx]
  rfl

/-- C1: on every (rectangular) board, `advance()` determines the cell
at `(y, x)` from its pre-advance state and the count of Alive cells
among its in-bounds 8-neighbourhood of the pre-advance grid, by the
spec's rule table (`lifeRule`). -/
theorem advance_cell_rule (b : Board) (hb : b.rect) (y x : Nat)
    (hy : y < b.height) (hx : x < b.width) (s : State)
    (hs : readCell b.state y x = some s) :
    ∃ b', b.next_board_state = some b' ∧
      readCell b'.state y x =
        some (lifeRule s (specNeighborCount b y x)) := by
  refine ⟨nextFun b, next_eq b hb, ?_⟩
  rw [readCell_nextFun b y x hy hx, hs, nextCell_eq_lifeRule,
    liveCounts_eq_spec b hb y x hy hx]
  rfl

theorem advance_cell_rule_witness :
    (⟨[[State.DEAD, State.ALIVE, State.DEAD],
       [State.DEAD, State.ALIVE, State.DEAD],
       [State.DEAD, State.ALIVE, State.DEAD]]⟩ : Board).rect ∧
      1 < (⟨[[State.DEAD, State.ALIVE, State.DEAD],
        [State.DEAD, State.ALIVE, State.DEAD],
        [State.DEAD, State.ALIVE, State.DEAD]]⟩ : Board).height ∧
      0 < (⟨[[State.DEAD, State.ALIVE, State.DEAD],
        [State.DEAD, State.ALIVE, State.DEAD],
        [State.DEAD, State.ALIVE, State.DEAD]]⟩ : Board).width ∧
      readCell [[State.DEAD, State.ALIVE, State.DEAD],
        [State.DEAD, State.ALIVE, State.DEAD],
        [State.DEAD, State.ALIVE, State.DEAD]] 1 0 = some State.DEAD ∧
      ∃ b', Board.next_board_state
          ⟨[[State.DEAD, State.ALIVE, State.DEAD],
            [State.DEAD, State.ALIVE, State.DEAD],
            [State.DEAD, State.ALIVE, State.DEAD]]⟩ = some b' ∧
        readCell b'.state 1 0 =
          some (lifeRule State.DEAD
            (specNeighborCount
              ⟨[[State.DEAD, State.ALIVE, State.DEAD],
                [State.DEAD, State.ALIVE, State.DEAD],
                [State.DEAD, State.ALIVE, State.DEAD]]⟩ 1 0)) :=
  ⟨by decide, by decide, by decide, by decide,
    advance_cell_rule _ (by decide) 1 0 (by decide) (by decide)
      State.DEAD (by decide)⟩

/-! Rectangularity of the constructors, `from_text` failure semantics,
and the degenerate boards. -/

lemma rect_of_uniform (g : List (List State)) (w : Nat)
    (h : ∀ r ∈ g, r.length = w) : (⟨g⟩ : Board).rect := by
  intro r hr
  cases g with
  | nil => exact absurd hr (by simp)
  | cons r0 t =>
    have hw : (⟨r0 :: t⟩ : Board).width = r0.length := rfl
    rw [hw, h r hr, h r0 (List.mem_cons_self r0 t)]

lemma randRows_uniform (rng : Nat → Nat → State) (w : Nat) :
    ∀ (k : Nat) (g : List (List State)), (∀ r ∈ g, r.length = w) →
      ∀ r ∈ randRows rng k g, r.length = w
  | k, [], h => by intro r hr; exact absurd hr (List.not_mem_nil r)
  | k, row :: rest, h => by
    intro r hr
    rcases List.mem_cons.mp hr with rfl | hr'
    · rw [List.length_map, List.length_range]
      exact h row (List.mem_cons_self row rest)
    · exact randRows_uniform rng w (k + 1) rest
        (fun r hr => h r (List.mem_cons_of_mem row hr)) r hr'

lemma foldlM_some_id {α β : Type} (f : β → α → Option β)
    (hf : ∀ st a, f st a = some st) :
    ∀ (l : List α) (st : β), l.foldlM f st = some st
  | [], st => rfl
  | a :: l, st => by
    rw [List.foldlM_cons, hf st a, bindSomeEq]
    exact foldlM_some_id f hf l st

/-- A board with zero width or zero height advances to itself: the
loops make no iteration, so `new_board` stays the clone of `self`. -/
lemma advance_degenerate (b : Board) (h : b.width = 0 ∨ b.height = 0) :
    b.next_board_state = some b := by
  unfold Board.next_board_state nextRun
  rcases h with hw | hh
  · rw [hw]
    rw [foldlM_some_id
      (fun (st : LoopState) (y : Nat) =>
        (List.range 0).foldlM (fun st x => stepCell st y x) st)
      (fun st y => rfl)]
    rfl
  · rw [hh]
    rfl

lemma from_text_ok_state {s : List Nat} {b : Board}
    (h : from_text s = Except.ok b) :
    b.state = ((rustLines s).map fun line => line.map State.ofByte) ∧
      ((rustLines s).zip (rustLines s).tail).any
        (fun p => p.1.length != p.2.length) = false := by
  unfold from_text at h
  split at h
  · exact absurd h (by simp)
  · next hc =>
    have hcf : ((rustLines s).zip (rustLines s).tail).any
        (fun p => p.1.length != p.2.length) = false := by
      revert hc
      cases ((rustLines s).zip (rustLines s).tail).any
          (fun p => p.1.length != p.2.length) <;> simp
    refine ⟨?_, hcf⟩
    rw [← Except.ok.inj h]

/-- C6: every constructor (`new`, the boolean-matrix conversion,
`from_text`) yields a rectangular board, and rectangularity is
preserved by `next_board_state` and `random_state`. -/
theorem constructors_rect :
    (∀ w h, (Board.new w h).rect) ∧
    (∀ (m : List (List Bool)) (w : Nat), (∀ r ∈ m, r.length = w) →
      (from_bool_matrix m).rect) ∧
    (∀ (s : List Nat) (b : Board), from_text s = Except.ok b → b.rect) ∧
    (∀ (b b' : Board), b.rect → b.next_board_state = some b' → b'.rect) ∧
    (∀ (b : Board) (rng : Nat → Nat → State), b.rect →
      (b.random_state rng).rect) := by
  refine ⟨?_, ?_, ?_, ?_, ?_⟩
  · intro w h
    exact rect_of_uniform _ w fun r hr =>
      (List.eq_of_mem_replicate hr).symm ▸ List.length_replicate w _
  · intro m w hm
    apply rect_of_uniform _ w
    intro r hr
    obtain ⟨r0, hr0, hmap⟩ := List.mem_map.mp hr
    rw [← hmap, List.length_map]
    exact hm r0 hr0
  · intro s b h
    obtain ⟨hstate, hc⟩ := from_text_ok_state h
    cases hl : rustLines s with
    | nil =>
      rw [hl] at hstate
      intro r hr
      rw [hstate] at hr
      exact absurd hr (by simp)
    | cons l0 ls =>
      have hb : b = ⟨(rustLines s).map fun line => line.map State.ofByte⟩ := by
        cases b
        simpa using hstate
      rw [hb]
      apply rect_of_uniform _ l0.length
      intro r hr
      obtain ⟨line, hline, hmap⟩ := List.mem_map.mp hr
      rw [← hmap, List.length_map]
      exact chain_all_eq hc line hline l0 (hl ▸ List.mem_cons_self l0 ls)
  · intro b b' hb h
    rw [next_eq b hb] at h
    rw [← Option.some.inj h]
    exact nextFun_rect b
  · intro b rng hb
    exact rect_of_uniform _ b.width (randRows_uniform rng b.width 0 b.state hb)

theorem constructors_rect_witness :
    (Board.new 2 3).rect ∧
      (from_bool_matrix [[true], [false]]).rect ∧
      (⟨[[State.ALIVE, State.DEAD]]⟩ : Board).rect ∧
      (⟨[[State.DEAD]]⟩ : Board).rect ∧
      ((Board.new 1 1).random_state fun _ _ => State.ALIVE).rect :=
  ⟨constructors_rect.1 2 3,
   constructors_rect.2.1 [[true], [false]] 1 (by decide),
   constructors_rect.2.2.1 (strBytes "#.") ⟨[[State.ALIVE, State.DEAD]]⟩
     (by decide),
   constructors_rect.2.2.2.1 ⟨[[State.ALIVE]]⟩ ⟨[[State.DEAD]]⟩
     (by decide) (by decide),
   constructors_rect.2.2.2.2 (Board.new 1 1) (fun _ _ => State.ALIVE)
     (by decide)⟩

/-- C3: `from_text` fails exactly when two lines of the input differ in
length; on success it returns one row per line; the empty input yields
the zero-row board; and this is the only failure condition — advancing
any (rectangular) board always succeeds. -/
theorem from_text_fail_iff (s : List Nat) :
    ((∃ e, from_text s = Except.error e) ↔
      ∃ l1 ∈ rustLines s, ∃ l2 ∈ rustLines s, l1.length ≠ l2.length) ∧
    (∀ b, from_text s = Except.ok b → b.height = (rustLines s).length) ∧
    from_text [] = Except.ok ⟨[]⟩ ∧
    (∀ b : Board, b.rect → (b.next_board_state).isSome) := by
  refine ⟨?_, ?_, by decide, fun b hb => by rw [next_eq b hb]; rfl⟩
  · cases hc : ((rustLines s).zip (rustLines s).tail).any
        (fun p => p.1.length != p.2.length) with
    | true =>
      constructor
      · intro _
        obtain ⟨p, hp, hne⟩ := List.any_eq_true.mp hc
        obtain ⟨h1, h2⟩ := List.mem_zip hp
        exact ⟨p.1, h1, p.2, List.tail_subset _ h2, by simpa using hne⟩
      · intro _
        have he : from_text s = Except.error
            "Unable to convert &str to Board, all lines\x27 length should be equal" := by
          unfold from_text
          rw [hc]
          rfl
        exact ⟨_, he⟩
    | false =>
      constructor
      · intro ⟨e, he⟩
        unfold from_text at he
        rw [hc] at he
        exact absurd he (by simp)
      · intro ⟨l1, h1, l2, h2, hne⟩
        exact absurd (chain_all_eq hc l1 h1 l2 h2) hne
  · intro b hb
    obtain ⟨hstate, _⟩ := from_text_ok_state hb
    show b.state.length = _
    rw [hstate, List.length_map]

theorem from_text_fail_iff_witness :
    ∃ e, from_text (strBytes "#\n#.") = Except.error e :=
  (from_text_fail_iff (strBytes "#\n#.")).1.mpr
    ⟨[35], by decide, [35, 46], by decide, by decide⟩

/-! Parsing maps bytes, not characters, to cells. -/

lemma splitNl_no_nl : ∀ (s : List Nat), ∀ l ∈ splitNl s, 10 ∉ l
  | [] => by intro l hl; exact absurd hl (List.not_mem_nil l)
  | c :: rest => by
    intro l hl
    by_cases hc : c = 10
    · subst hc
      have heq : splitNl (10 :: rest) = [] :: splitNl rest := by
        conv_lhs => rw [splitNl]
        rw [if_pos rfl]
      rw [heq] at hl
      rcases List.mem_cons.mp hl with rfl | hl'
      · simp
      · exact splitNl_no_nl rest l hl'
    · have heq : splitNl (c :: rest) =
          match splitNl rest with
          | [] => [[c]]
          | l0 :: ls => (c :: l0) :: ls := by
        conv_lhs => rw [splitNl]
        rw [if_neg hc]
      rw [heq] at hl
      cases hrest : splitNl rest with
      | nil =>
        rw [hrest] at hl
        simp only [List.mem_singleton] at hl
        rw [hl]
        intro hmem
        rcases List.mem_cons.mp hmem with h10 | h10
        · exact hc h10.symm
        · exact absurd h10 (List.not_mem_nil 10)
      | cons l0 ls =>
        rw [hrest] at hl
        rcases List.mem_cons.mp hl with rfl | hl'
        · intro hmem
          rcases List.mem_cons.mp hmem with h10 | h10
          · exact hc h10.symm
          · exact splitNl_no_nl rest l0 (hrest ▸ List.mem_cons_self l0 ls) h10
        · exact splitNl_no_nl rest l (hrest ▸ List.mem_cons_of_mem l0 hl')

lemma rustLines_no_nl (s : List Nat) : ∀ l ∈ rustLines s, 10 ∉ l := by
  intro l hl hmem
  obtain ⟨l0, hl0, hstrip⟩ := List.mem_map.mp hl
  exact splitNl_no_nl s l0 hl0 (stripCR_subset l0 (hstrip ▸ hmem))

/-- C7 (amended): on accepted input every byte of a line becomes
exactly one cell — the rows are the lines mapped bytewise through
`State::from` (`'.'` = 46 and `'0'` = 48 give Dead, every other byte
Alive) — and line-feed bytes never become cells. -/
theorem from_text_byte_per_cell (s : List Nat) (b : Board)
    (h : from_text s = Except.ok b) :
    b.state = ((rustLines s).map fun line => line.map State.ofByte) ∧
    (∀ l ∈ rustLines s, 10 ∉ l) ∧
    State.ofByte 46 = State.DEAD ∧ State.ofByte 48 = State.DEAD ∧
    ∀ c, c ≠ 46 → c ≠ 48 → State.ofByte c = State.ALIVE := by
  refine ⟨(from_text_ok_state h).1, rustLines_no_nl s, by decide, by decide,
    ?_⟩
  intro c h1 h2
  unfold State.ofByte
  rw [if_neg]
  intro hor
  rcases hor with h | h
  · exact h1 h
  · exact h2 h

theorem from_text_byte_per_cell_witness :
    (⟨[[State.ALIVE, State.DEAD]]⟩ : Board).state =
      ((rustLines (strBytes "#.")).map fun line =>
        line.map State.ofByte) :=
  (from_text_byte_per_cell (strBytes "#.") ⟨[[State.ALIVE, State.DEAD]]⟩
    (by decide)).1

/-- C7 (counterexample): the single-character line `"é"` (UTF-8 bytes
195, 169) parses to a row of two cells, so a character is not always
one cell. -/
theorem from_text_char_per_cell_cex :
    ("é" : String).data.length = 1 ∧
    strBytes "é" = [195, 169] ∧
    from_text (strBytes "é") =
      Except.ok ⟨[[State.ALIVE, State.ALIVE]]⟩ ∧
    (⟨[[State.ALIVE, State.ALIVE]]⟩ : Board).width ≠
      ("é" : String).data.length := by
  exact ⟨by decide, by decide, by decide, by decide⟩

/-- C8: the text rendering is one line per row with one byte per cell
(Alive = `'#'` = 35, Dead = `'.'` = 46), and every row — the last
included — is terminated by a line break. -/
theorem render_shape (b : Board) :
    rustLines (render b) = (b.state.map fun r => r.map State.toByte) ∧
    (b.state ≠ [] → (render b).getLast? = some 10) ∧
    State.toByte State.ALIVE = 35 ∧ State.toByte State.DEAD = 46 :=
  ⟨render_lines b, render_getLast b, by decide, by decide⟩

theorem render_shape_witness :
    rustLines (render ⟨[[State.ALIVE, State.DEAD]]⟩) =
      ([[State.ALIVE, State.DEAD]].map fun r => r.map State.toByte) ∧
    (render ⟨[[State.ALIVE, State.DEAD]]⟩).getLast? = some 10 :=
  ⟨(render_shape ⟨[[State.ALIVE, State.DEAD]]⟩).1,
   (render_shape ⟨[[State.ALIVE, State.DEAD]]⟩).2.1 (by decide)⟩

/-- C9 (counterexample): `new(3, 0)` has no rows, so `width()` is `0`,
not the requested `3`. -/
theorem new_width_cex : (Board.new 3 0).width ≠ 3 := by decide

/-- C9 (amended): `new(w, h)` has `height() = h`, `width() = w`
whenever `h > 0` (and `width() = 0` when `h = 0`, since the board has
no rows), every cell Dead; and `advance()` returns a board with zero
width or zero height unchanged. -/
theorem new_spec_amended (w h : Nat) (b : Board)
    (hdeg : b.width = 0 ∨ b.height = 0) :
    (Board.new w h).height = h ∧
    (0 < h → (Board.new w h).width = w) ∧
    (h = 0 → (Board.new w h).width = 0) ∧
    (∀ y x s, readCell (Board.new w h).state y x = some s →
      s = State.DEAD) ∧
    b.next_board_state = some b := by
  refine ⟨by simp [Board.new, Board.height], ?_, ?_, ?_,
    advance_degenerate b hdeg⟩
  · intro hh
    cases h with
    | zero => omega
    | succ n => simp [Board.new, Board.width, List.head?_replicate]
  · intro hh
    subst hh
    rfl
  · intro y x s hs
    unfold readCell at hs
    cases hg : (Board.new w h).state.get? y with
    | none => rw [hg] at hs; exact absurd hs (by simp)
    | some row =>
      rw [hg] at hs
      simp only [Option.some_bind] at hs
      have hrow : row = List.replicate w State.DEAD :=
        List.eq_of_mem_replicate (List.get?_mem hg)
      rw [hrow] at hs
      exact List.eq_of_mem_replicate (List.get?_mem hs)

theorem new_spec_amended_witness :
    (Board.new 2 3).height = 3 ∧ (Board.new 2 3).width = 2 ∧
      (Board.new 0 2).next_board_state = some (Board.new 0 2) :=
  ⟨(new_spec_amended 2 3 (Board.new 0 2) (by decide)).1,
   (new_spec_amended 2 3 (Board.new 0 2) (by decide)).2.1 (by decide),
   (new_spec_amended 2 3 (Board.new 0 2) (by decide)).2.2.2.2⟩
